import Mathlib

/-!
# Verification of the course-structure inference engine of `oh-my-course`

This file gives a shallow embedding, in Lean 4, of the pure computational core of
`src/scripts/app.js`: the filename classifier (`getFileType`, `extractLessonNumber`,
`cleanSectionName`, `cleanLessonName`), the natural sorter (`naturalSort`), the lesson
grouper and course-structure builder (`parseCourseStructure`), the progress percentage
computation (`updateProgressBar` / `saveCourseProgress`), the course-load flow
(`loadCourse`) and lesson navigation (`navigateLesson`), together with theorems that
settle the specification claims about them.

Modelling decisions:
* JavaScript strings are modelled as `List Char`; file-system trees as a list of
  `(directoryName, fileNames)` pairs (only immediate subdirectories and their immediate
  files matter to the builder, which filters by entry kind).
* `Array.prototype.sort` with a comparator is stable (ES2019); a stable sort's output is
  uniquely determined by the comparator, so it is modelled by `List.insertionSort` with
  the reflexive relation "comparator does not return `gt`" (Mathlib's `orderedInsert`
  places the earlier element before ties, which is exactly stability).
* `a.localeCompare(b, undefined, {numeric: true, sensitivity: 'base'})` is modelled by
  tokenizing each string into maximal digit runs (compared by numeric value, so that
  `"2"` sorts before `"10"` and `"02"` ties with `"2"`) and case-folded single
  characters (so `"A"` ties with `"a"`), digit runs comparing below other characters,
  and comparing token lists lexicographically.
* File handles are opaque to the engine and are dropped from the model; wall-clock
  fields of library metadata (`addedDate`, `lastAccessed`) are likewise not modelled.
-/

namespace OhMyCourse

/-- JavaScript strings, as the engine consumes them, are lists of characters. -/
abbrev JName := List Char

/-- Roles assigned by `getFileType` in `app.js`.  The fallback value of the lookup
(`typeMap[ext] || 'file'`) is the string `'file'`, modelled by the constructor `file`;
the spec calls this fallback role "other". -/
inductive FileType where
  | video
  | subtitle
  | pdf
  | html
  | text
  | archive
  | presentation
  | file
deriving DecidableEq, Repr

/-- The fixed extension→role table `typeMap` of `getFileType`. -/
def typeMap : List (JName × FileType) :=
  [("mp4".toList, FileType.video),
   ("vtt".toList, FileType.subtitle),
   ("pdf".toList, FileType.pdf),
   ("html".toList, FileType.html),
   ("txt".toList, FileType.text),
   ("zip".toList, FileType.archive),
   ("odp".toList, FileType.presentation)]

/-- Model of JavaScript `filename.split('.')`: splits at every `'.'`, keeping empty
pieces, and yields `[""]` on the empty string. -/
def splitOnDot : JName → List JName
  | [] => [[]]
  | c :: cs =>
    if c = '.' then [] :: splitOnDot cs
    else
      match splitOnDot cs with
      | h :: t => (c :: h) :: t
      | [] => [[c]]

/-- Function `getFileType` from `app.js`: take the piece after the last dot
(`filename.split('.').pop()` — the whole name when there is no dot), lower-case it, and
look it up in `typeMap`, defaulting to the role `file`. -/
def getFileType (filename : JName) : FileType :=
  let ext := ((splitOnDot filename).getLast?.getD []).map Char.toLower
  (typeMap.lookup ext).getD FileType.file

/-- Function `extractLessonNumber` from `app.js`: the regex `/^(\d+)\./` matches exactly when the
maximal leading run of digits is non-empty and is immediately followed by `'.'`; the
match yields that digit run, and on no match the function returns `"0"`. -/
def extractLessonNumber (filename : JName) : JName :=
  let ds := filename.takeWhile Char.isDigit
  if ds ≠ [] ∧ (filename.dropWhile Char.isDigit).head? = some '.' then ds else ['0']

/-- Function `cleanSectionName` from `app.js`: `name.replace(/^\d+\.\s*/, '')` — when the name
starts with digits followed by `'.'`, drop them, the dot, and any following
whitespace. -/
def cleanSectionName (name : JName) : JName :=
  if (name.takeWhile Char.isDigit) ≠ [] ∧ (name.dropWhile Char.isDigit).head? = some '.' then
    (name.dropWhile Char.isDigit).tail.dropWhile Char.isWhitespace
  else name

/-- The extensions recognized by the trailing-extension strip of `cleanLessonName`
(the regex `/\.(mp4|pdf|html|txt|vtt|zip|odp)$/i`). -/
def knownExts : List JName :=
  ["mp4".toList, "pdf".toList, "html".toList, "txt".toList,
   "vtt".toList, "zip".toList, "odp".toList]

/-- The trailing-extension strip of `cleanLessonName`: if the name case-insensitively
ends in a dot followed by a recognized extension, remove that suffix. -/
def stripKnownExt (name : JName) : JName :=
  match knownExts.find? (fun e => ('.' :: e).isSuffixOf (name.map Char.toLower)) with
  | some e => name.take (name.length - (e.length + 1))
  | none => name

/-- JavaScript `String.prototype.trim`: drop whitespace from both ends. -/
def trimName (name : JName) : JName :=
  ((name.dropWhile Char.isWhitespace).reverse.dropWhile Char.isWhitespace).reverse

/-- Function `cleanLessonName` from `app.js`: strip the leading `/^\d+\.\s*/` pattern, then a
trailing recognized extension, then trim. -/
def cleanLessonName (filename : JName) : JName :=
  trimName (stripKnownExt (cleanSectionName filename))

/-- The suffix of a name after its last dot — the whole name when it has no dot.
Used to relate `getFileType`, which goes through `splitOnDot`, to the spec's wording
about extensions. -/
def extOf : JName → JName
  | [] => []
  | c :: cs => if '.' ∈ cs then extOf cs else if c = '.' then cs else c :: cs

/-- The classifier's role as claim C5 words it: the extension is looked up in the fixed
table case-insensitively, and a file with a *missing* extension (no dot in the name)
receives the fallback role. -/
def specRole (filename : JName) : FileType :=
  if '.' ∈ filename then
    (typeMap.lookup ((extOf filename).map Char.toLower)).getD FileType.file
  else FileType.file

/-- A file whose role is neither video nor subtitle (the grouper's "extra" files). -/
def isExtraFile (f : JName) : Bool :=
  decide (¬(getFileType f = FileType.video ∨ getFileType f = FileType.subtitle))

/-- Function `generateCourseId` from `app.js`:
`courseName.toLowerCase().replace(/[^a-z0-9]/g, '_')`. -/
def generateCourseId (courseName : JName) : JName :=
  courseName.map (fun c =>
    let c' := c.toLower
    if ('a' ≤ c' ∧ c' ≤ 'z') ∨ ('0' ≤ c' ∧ c' ≤ '9') then c' else '_')

/-! ## The natural-sort comparator

`naturalSort(a, b) = a.localeCompare(b, undefined, { numeric: true, sensitivity: 'base' })`
is modelled by comparing the token lists `natKey a` and `natKey b` lexicographically. -/

/-- Tokenization underlying the numeric, case-insensitive collation: maximal digit runs
become numeric tokens `Sum.inl value` (the value read in base 10, so `"02"` and `"2"`
agree); every other character becomes the token `Sum.inr` of its lower-cased code
point.  `cur` carries the value of the digit run currently being read. -/
def natKeyAux (cur : Option Nat) : JName → List (Nat ⊕ Nat)
  | [] =>
    match cur with
    | some n => [Sum.inl n]
    | none => []
  | c :: cs =>
    if c.isDigit then
      natKeyAux (some ((cur.getD 0) * 10 + (c.toNat - '0'.toNat))) cs
    else
      match cur with
      | some n => Sum.inl n :: Sum.inr c.toLower.toNat :: natKeyAux none cs
      | none => Sum.inr c.toLower.toNat :: natKeyAux none cs

/-- The collation key of a name: its list of tokens. -/
def natKey (l : JName) : List (Nat ⊕ Nat) := natKeyAux none l

/-- Comparison of single collation tokens: numeric tokens compare by value and sort
below character tokens; character tokens compare by lower-cased code point. -/
def cmpTok : Nat ⊕ Nat → Nat ⊕ Nat → Ordering
  | Sum.inl m, Sum.inl n => compare m n
  | Sum.inl _, Sum.inr _ => Ordering.lt
  | Sum.inr _, Sum.inl _ => Ordering.gt
  | Sum.inr a, Sum.inr b => compare a b

/-- Lexicographic comparison of token lists (`Ordering.then` falls through to the tail
comparison exactly when the head tokens compare equal). -/
def cmpKey : List (Nat ⊕ Nat) → List (Nat ⊕ Nat) → Ordering
  | [], [] => Ordering.eq
  | [], _ :: _ => Ordering.lt
  | _ :: _, [] => Ordering.gt
  | x :: xs, y :: ys => (cmpTok x y).then (cmpKey xs ys)

/-- Function `naturalSort` from `app.js` (see the module docstring for the collation model). -/
def naturalSort (a b : JName) : Ordering :=
  cmpKey (natKey a) (natKey b)

/-- The non-strict order induced by the comparator: "sorts no later than".  A stable
comparator sort produces exactly a list sorted by this relation. -/
def natLe (a b : JName) : Prop := naturalSort a b ≠ Ordering.gt

instance : DecidableRel natLe := fun a b =>
  inferInstanceAs (Decidable (naturalSort a b ≠ Ordering.gt))

/-! ## Data model of the parsed course structure -/

/-- One file reference inside a lesson group (`{handle, name, type}` in `app.js`; the
opaque handle is not modelled). -/
structure LessonFile where
  name : JName
  type : FileType
deriving DecidableEq, Repr

/-- One lesson group (`{number, name, files}` in `app.js`). -/
structure Lesson where
  number : JName
  name : JName
  files : List LessonFile
deriving DecidableEq, Repr

/-- One section (`{name, rawName, lessons, hasNonVideoFiles}` in `app.js`). -/
structure Section where
  name : JName
  rawName : JName
  lessons : List Lesson
  hasNonVideoFiles : Bool
deriving DecidableEq, Repr

/-- The three `throw new Error(...)` message classes of `parseCourseStructure`. -/
inductive StructureError where
  | noSections
  | noVideos
  | invalidFormat
deriving DecidableEq, Repr

instance {ε α : Type} [DecidableEq ε] [DecidableEq α] : DecidableEq (Except ε α) :=
  fun a b =>
    match a, b with
    | Except.error e₁, Except.error e₂ => decidable_of_iff (e₁ = e₂) (by simp)
    | Except.ok s₁, Except.ok s₂ => decidable_of_iff (s₁ = s₂) (by simp)
    | Except.error _, Except.ok _ => isFalse (by simp)
    | Except.ok _, Except.error _ => isFalse (by simp)

/-- A lesson group contains a video-role file. -/
def hasVideoFile (l : Lesson) : Bool :=
  l.files.any (fun f => f.type = FileType.video)

/-- The `lessonGroups` JavaScript `Map`, as an insertion-ordered association list keyed
by `Lesson.number`: `Map.set` on a fresh key appends at the end (creating the group with
`name` taken from the file at hand), and a later file with an existing key is pushed
onto that group's `files`. -/
def insertFile (num lessonName : JName) (f : LessonFile) : List Lesson → List Lesson
  | [] => [{ number := num, name := lessonName, files := [f] }]
  | g :: gs =>
    if g.number = num then
      { number := g.number, name := g.name, files := g.files ++ [f] } :: gs
    else
      g :: insertFile num lessonName f gs

/-- One iteration of the grouping loop of `parseCourseStructure`, over the accumulator
`(lessonGroups, nonVideoFiles, totalVideosFound)`: video/subtitle files are bucketed by
`extractLessonNumber`, videos are counted, and every other file goes to
`nonVideoFiles`. -/
def groupStep (acc : List Lesson × List JName × Nat) (fname : JName) :
    List Lesson × List JName × Nat :=
  let ft := getFileType fname
  if ft = FileType.video ∨ ft = FileType.subtitle then
    (insertFile (extractLessonNumber fname) (cleanLessonName fname)
        { name := fname, type := ft } acc.1,
     acc.2.1,
     if ft = FileType.video then acc.2.2 + 1 else acc.2.2)
  else
    (acc.1, acc.2.1 ++ [fname], acc.2.2)

/-- The grouping loop of `parseCourseStructure` over a (sorted) file list. -/
def groupFiles (files : List JName) : List Lesson × List JName × Nat :=
  files.foldl groupStep ([], [], 0)

/-- Order on lesson groups used for the final `.sort((a, b) => naturalSort(a.number, b.number))`. -/
def lessonLe (a b : Lesson) : Prop := natLe a.number b.number

instance : DecidableRel lessonLe := fun a b =>
  inferInstanceAs (Decidable (natLe a.number b.number))

/-- Order on directory entries used for `entries.sort((a, b) => naturalSort(a.name, b.name))`. -/
def sectionDirLe (a b : JName × List JName) : Prop := natLe a.1 b.1

instance : DecidableRel sectionDirLe := fun a b =>
  inferInstanceAs (Decidable (natLe a.1 b.1))

/-- Processing of one section directory in `parseCourseStructure`: sort the file names,
group them, retain the groups having a video (sorted by ordinal), and flag extra files.
Returns the built `Section` together with the number of videos found in it. -/
def processSection (dir : JName × List JName) : Section × Nat :=
  let res := groupFiles (dir.2.insertionSort natLe)
  ({ name := cleanSectionName dir.1,
     rawName := dir.1,
     lessons := (res.1.filter hasVideoFile).insertionSort lessonLe,
     hasNonVideoFiles := decide (0 < res.2.1.length) }, res.2.2)

/-- Function `parseCourseStructure` from `app.js`, over the listing of the root directory
(its immediate subdirectories, each with its immediate file names). -/
def parseCourseStructure (dirs : List (JName × List JName)) :
    Except StructureError (List Section) :=
  if dirs.length = 0 then Except.error StructureError.noSections
  else
    let result := (dirs.insertionSort sectionDirLe).foldl
      (fun acc d =>
        let sv := processSection d
        (if 0 < sv.1.lessons.length then acc.1 ++ [sv.1] else acc.1, acc.2 + sv.2))
      ([], 0)
    if result.2 = 0 then Except.error StructureError.noVideos
    else if result.1.length = 0 then Except.error StructureError.invalidFormat
    else Except.ok result.1

/-! ### Declarative views of the builder, used to state the claims -/

/-- The section built from one directory. -/
def sectionOf (dir : JName × List JName) : Section := (processSection dir).1

/-- Total number of video-role files across all section directories. -/
def totalVideoCount (dirs : List (JName × List JName)) : Nat :=
  (dirs.map (fun d => d.2.countP (fun f => decide (getFileType f = FileType.video)))).sum

/-- The sections the builder retains: those whose lesson list is non-empty, in
natural-sort order of the directory names. -/
def retainedSections (dirs : List (JName × List JName)) : List Section :=
  ((dirs.insertionSort sectionDirLe).map sectionOf).filter (fun s => decide (s.lessons ≠ []))

/-- All buckets the grouper forms for a section file list (before the video filter),
in `Map` insertion order. -/
def allGroups (files : List JName) : List Lesson :=
  (groupFiles (files.insertionSort natLe)).1

/-- The lesson groups the grouper retains for a section file list. -/
def retainedLessons (files : List JName) : List Lesson :=
  ((allGroups files).filter hasVideoFile).insertionSort lessonLe

/-- The buckets the grouper drops: those that collected no video-role file. -/
def droppedGroups (files : List JName) : List Lesson :=
  (allGroups files).filter (fun g => !hasVideoFile g)

/-- The `hasNonVideoFiles` flag the builder computes for a section file list. -/
def sectionHasExtra (files : List JName) : Bool :=
  (sectionOf ([], files)).hasNonVideoFiles

/-! ## Progress, course loading, and navigation -/

/-- Total lesson count of a structure:
`courseStructure.reduce((sum, section) => sum + section.lessons.length, 0)`. -/
def totalLessons (struct : List Section) : Nat :=
  (struct.map (fun s => s.lessons.length)).sum

/-- JavaScript `Math.round` on a (finite, non-NaN) value: `⌊x + 1/2⌋`. -/
def jsRound (q : ℚ) : ℤ := ⌊q + 1 / 2⌋

/-- The completion percentage computed identically in `updateProgressBar` and
`saveCourseProgress`:
`totalLessons > 0 ? Math.round((completedCount / totalLessons) * 100) : 0`,
where `completedCount = this.completedLessons.size` — the set is modelled as a list of
identifier strings whose `size` is its number of distinct elements. -/
def progressPercentage (struct : List Section) (completed : List JName) : ℤ :=
  if 0 < totalLessons struct then
    jsRound (((completed.dedup.length : ℚ) / (totalLessons struct : ℚ)) * 100)
  else 0

/-- The session and persisted state touched by `loadCourse` (the course library models
the persisted metadata map `courseId → course name`; timestamps and handles are not
modelled). -/
structure AppState where
  courseName : JName
  currentCourseId : JName
  courseStructure : List Section
  completedLessons : List JName
  courseLibrary : List (JName × JName)
deriving DecidableEq, Repr

/-- JavaScript `Map.prototype.set`: overwrite in place if the key exists, else append. -/
def librarySet (lib : List (JName × JName)) (id nm : JName) : List (JName × JName) :=
  if lib.any (fun e => e.1 = id) then
    lib.map (fun e => if e.1 = id then (id, nm) else e)
  else lib ++ [(id, nm)]

/-- Function `loadCourse` from `app.js`, given the picked directory's name, its listing, and the
completion set persisted for the derived course id.  Mirrors the statement order of the
`try` block: `courseName` and `currentCourseId` are assigned *before*
`parseCourseStructure` runs, and the `catch` block only shows a modal, restoring
nothing.  Returns the state after the call plus a success flag. -/
def loadCourse (st : AppState) (dirName : JName) (dirs : List (JName × List JName))
    (storedCompleted : List JName) : AppState × Bool :=
  let newId := generateCourseId dirName
  match parseCourseStructure dirs with
  | Except.error _ =>
      ({ st with courseName := dirName, currentCourseId := newId }, false)
  | Except.ok s =>
      ({ courseName := dirName,
         currentCourseId := newId,
         courseStructure := s,
         completedLessons := storedCompleted,
         courseLibrary := librarySet st.courseLibrary newId dirName }, true)

/-- Placeholder section for out-of-bounds reads in the navigation model (the JavaScript
code indexes `courseStructure[i]` directly; the theorems only use in-bounds indices). -/
def defaultSection : Section :=
  { name := [], rawName := [], lessons := [], hasNonVideoFiles := false }

/-- Number of lessons of section `i` of the structure. -/
def lessonCount (struct : List Section) (i : Nat) : Nat :=
  (struct.getD i defaultSection).lessons.length

/-- Function `navigateLesson` from `app.js`: move the current `(sectionIndex, lessonIndex)` by
`direction`, crossing into the previous section's last lesson or the next section's
first lesson at the edges, and staying put at the very first or very last lesson. -/
def navigateLesson (struct : List Section) (sectionIndex lessonIndex : Nat)
    (direction : ℤ) : Nat × Nat :=
  let newLessonIndex : ℤ := (lessonIndex : ℤ) + direction
  if newLessonIndex < 0 then
    if 0 < sectionIndex then
      (sectionIndex - 1, lessonCount struct (sectionIndex - 1) - 1)
    else (sectionIndex, lessonIndex)
  else if (lessonCount struct sectionIndex : ℤ) ≤ newLessonIndex then
    if sectionIndex < struct.length - 1 then (sectionIndex + 1, 0)
    else (sectionIndex, lessonIndex)
  else (sectionIndex, newLessonIndex.toNat)

/-- The sorted sort of a name list, as a reusable definition (the comparator sort the
builder applies to section names, file names and lesson ordinals). -/
def naturalSortList (l : List JName) : List JName := l.insertionSort natLe

/-- A section directory with its file list pre-sorted — the canonical representative
of all enumeration orders of that directory's listing. -/
def normalizeDir (d : JName × List JName) : JName × List JName :=
  (d.1, d.2.insertionSort natLe)

/-! ## Concrete inputs used by example parts of claims, counterexamples and witnesses -/

/-- The section file list `["2.a.mp4", "2.a.vtt", "3.b.vtt"]` from the spec. -/
def exSub : List JName := ["2.a.mp4".toList, "2.a.vtt".toList, "3.b.vtt".toList]

/-- The single retained lesson group for `exSub`. -/
def exSubLesson : Lesson :=
  { number := "2".toList,
    name := "a".toList,
    files := [{ name := "2.a.mp4".toList, type := FileType.video },
              { name := "2.a.vtt".toList, type := FileType.subtitle }] }

/-- Root listing whose two section names `"A"` and `"a"` tie under the case-insensitive
comparator, in one enumeration order. -/
def tieDirsA : List (JName × List JName) :=
  [("A".toList, ["1.x.mp4".toList]), ("a".toList, ["1.y.mp4".toList])]

/-- The same root listing as `tieDirsA`, enumerated in the opposite order. -/
def tieDirsB : List (JName × List JName) :=
  [("a".toList, ["1.y.mp4".toList]), ("A".toList, ["1.x.mp4".toList])]

/-- A one-video course listing. -/
def oneVideoDirs : List (JName × List JName) :=
  [("1. A".toList, ["1. x.mp4".toList])]

/-- The structure built from `oneVideoDirs`. -/
def oneVideoStruct : List Section :=
  [{ name := "A".toList,
     rawName := "1. A".toList,
     lessons := [{ number := "1".toList,
                   name := "x".toList,
                   files := [{ name := "1. x.mp4".toList, type := FileType.video }] }],
     hasNonVideoFiles := false }]

/-- A three-video course listing (one section, three lessons). -/
def threeVideoDirs : List (JName × List JName) :=
  [("1. S".toList, ["1. a.mp4".toList, "2. b.mp4".toList, "3. c.mp4".toList])]

/-- The structure the builder produces for `threeVideoDirs` (three lessons total). -/
def threeStruct : List Section := retainedSections threeVideoDirs

/-- A two-section course listing with two lessons in the first section, used to
exercise lesson navigation. -/
def navDirs : List (JName × List JName) :=
  [("1. S".toList, ["1. a.mp4".toList, "2. b.mp4".toList]),
   ("2. T".toList, ["1. c.mp4".toList])]

/-- A pre-existing app state used to exercise the failed-load path. -/
def oldState : AppState :=
  { courseName := "old".toList,
    currentCourseId := "old".toList,
    courseStructure := oneVideoStruct,
    completedLessons := ["0-0".toList],
    courseLibrary := [("old".toList, "old".toList)] }

/-! ## Laws of the natural-sort comparator -/

theorem natCompare_swap (m n : Nat) : compare m n = (compare n m).swap := by
  rcases Nat.lt_trichotomy m n with h | h | h
  · rw [compare_lt_iff_lt.mpr h, compare_gt_iff_gt.mpr h]; rfl
  · subst h; rw [compare_eq_iff_eq.mpr rfl]; rfl
  · rw [compare_gt_iff_gt.mpr h, compare_lt_iff_lt.mpr h]; rfl

theorem cmpTok_swap (x y : Nat ⊕ Nat) : cmpTok x y = (cmpTok y x).swap := by
  cases x <;> cases y <;> first | rfl | exact natCompare_swap _ _

theorem cmpTok_eq_iff {x y : Nat ⊕ Nat} : cmpTok x y = Ordering.eq ↔ x = y := by
  cases x <;> cases y <;> simp [cmpTok, compare_eq_iff_eq]

theorem cmpTok_lt_trans {x y z : Nat ⊕ Nat} (h₁ : cmpTok x y = Ordering.lt)
    (h₂ : cmpTok y z = Ordering.lt) : cmpTok x z = Ordering.lt := by
  cases x <;> cases y <;> cases z <;> simp only [cmpTok] at h₁ h₂ ⊢ <;>
    first
      | rfl
      | exact h₁.elim
      | exact h₂.elim
      | exact absurd h₁ (by decide)
      | exact absurd h₂ (by decide)
      | (rw [compare_lt_iff_lt] at h₁ h₂ ⊢; omega)

theorem cmpKey_eq_iff : ∀ {a b : List (Nat ⊕ Nat)}, cmpKey a b = Ordering.eq ↔ a = b
  | [], [] => by simp [cmpKey]
  | [], _ :: _ => by simp [cmpKey]
  | _ :: _, [] => by simp [cmpKey]
  | x :: xs, y :: ys => by
    constructor
    · intro h
      rcases hc : cmpTok x y with _ | _ | _ <;>
        simp only [cmpKey, hc, Ordering.then] at h
      · exact absurd h (by simp)
      · rw [cmpTok_eq_iff.mp hc, cmpKey_eq_iff.mp h]
      · exact absurd h (by simp)
    · intro h
      cases h
      simp only [cmpKey, cmpTok_eq_iff.mpr rfl, Ordering.then]
      exact cmpKey_eq_iff.mpr rfl

theorem cmpKey_swap : ∀ (a b : List (Nat ⊕ Nat)), cmpKey a b = (cmpKey b a).swap
  | [], [] => rfl
  | [], _ :: _ => rfl
  | _ :: _, [] => rfl
  | x :: xs, y :: ys => by
    simp only [cmpKey, cmpTok_swap x y]
    rcases cmpTok y x with _ | _ | _ <;> simp [Ordering.then, Ordering.swap]
    exact cmpKey_swap xs ys

theorem cmpKey_lt_trans :
    ∀ {a b c : List (Nat ⊕ Nat)}, cmpKey a b = Ordering.lt →
      cmpKey b c = Ordering.lt → cmpKey a c = Ordering.lt
  | [], [], _, h₁, _ => by simp [cmpKey] at h₁
  | _ :: _, [], _, h₁, _ => by simp [cmpKey] at h₁
  | [], _ :: _, [], _, h₂ => by simp [cmpKey] at h₂
  | [], _ :: _, _ :: _, _, _ => by simp [cmpKey]
  | _ :: _, _ :: _, [], _, h₂ => by simp [cmpKey] at h₂
  | x :: xs, y :: ys, z :: zs, h₁, h₂ => by
    rcases hxy : cmpTok x y with _ | _ | _ <;>
      simp only [cmpKey, hxy, Ordering.then] at h₁ ⊢
    · rcases hyz : cmpTok y z with _ | _ | _ <;>
        simp only [cmpKey, hyz, Ordering.then] at h₂
      · simp [cmpTok_lt_trans hxy hyz, Ordering.then]
      · obtain rfl : y = z := cmpTok_eq_iff.mp hyz
        simp [hxy, Ordering.then]
      · exact absurd h₂ (by simp)
    · obtain rfl : x = y := cmpTok_eq_iff.mp hxy
      rcases hxz : cmpTok x z with _ | _ | _
      · simp [hxz, Ordering.then]
      · obtain rfl : x = z := cmpTok_eq_iff.mp hxz
        simp only [cmpKey, hxz, Ordering.then] at h₂ ⊢
        exact cmpKey_lt_trans h₁ h₂
      · simp only [cmpKey, hxz, Ordering.then] at h₂
        exact absurd h₂ (by simp)
    · exact absurd h₁ (by simp)

theorem cmpKey_le_trans {a b c : List (Nat ⊕ Nat)} (h₁ : cmpKey a b ≠ Ordering.gt)
    (h₂ : cmpKey b c ≠ Ordering.gt) : cmpKey a c ≠ Ordering.gt := by
  rcases hab : cmpKey a b with _ | _ | _
  · rcases hbc : cmpKey b c with _ | _ | _
    · simp [cmpKey_lt_trans hab hbc]
    · rw [← cmpKey_eq_iff.mp hbc]
      simp [hab]
    · exact absurd hbc h₂
  · rw [cmpKey_eq_iff.mp hab]
    exact h₂
  · exact absurd hab h₁

theorem naturalSort_swap (a b : JName) : naturalSort a b = (naturalSort b a).swap :=
  cmpKey_swap _ _

theorem naturalSort_eq_iff {a b : JName} :
    naturalSort a b = Ordering.eq ↔ natKey a = natKey b :=
  cmpKey_eq_iff

instance : IsTotal JName natLe :=
  ⟨fun a b => by
    unfold natLe
    rcases h : naturalSort a b with _ | _ | _
    · exact Or.inl (by simp [h])
    · exact Or.inl (by simp [h])
    · refine Or.inr ?_
      rw [naturalSort_swap b a, h]
      decide⟩

instance : IsTrans JName natLe :=
  ⟨fun _ _ _ h₁ h₂ => cmpKey_le_trans h₁ h₂⟩

instance : IsTotal Lesson lessonLe :=
  ⟨fun a b => total_of natLe a.number b.number⟩

instance : IsTrans Lesson lessonLe :=
  ⟨fun _ _ _ h₁ h₂ => Trans.trans (r := natLe) h₁ h₂⟩

instance : IsTotal (JName × List JName) sectionDirLe :=
  ⟨fun a b => total_of natLe a.1 b.1⟩

instance : IsTrans (JName × List JName) sectionDirLe :=
  ⟨fun _ _ _ h₁ h₂ => Trans.trans (r := natLe) h₁ h₂⟩

/-- Claim C8: sorting with the natural-sort comparator is idempotent — re-sorting an
already natural-sorted list of file names leaves it unchanged. -/
theorem claim_c8_sort_idempotent (l : List JName) :
    naturalSortList (naturalSortList l) = naturalSortList l :=
  List.Sorted.insertionSort_eq (List.sorted_insertionSort natLe l)

/-! ## The grouper: bucket retention (C1) and the extra-files flag (C3) -/

theorem foldl_groupStep_extra (files : List JName) :
    ∀ acc : List Lesson × List JName × Nat,
      (files.foldl groupStep acc).2.1 = acc.2.1 ++ files.filter isExtraFile := by
  induction files with
  | nil => intro acc; simp
  | cons f fs ih =>
    intro acc
    rw [List.foldl_cons, ih]
    by_cases h : getFileType f = FileType.video ∨ getFileType f = FileType.subtitle
    · have hx : isExtraFile f = false := by simp [isExtraFile, h]
      simp [groupStep, h, hx, List.filter_cons]
    · have hx : isExtraFile f = true := by simp [isExtraFile, h]
      simp [groupStep, h, hx, List.filter_cons]

theorem foldl_groupStep_videos (files : List JName) :
    ∀ acc : List Lesson × List JName × Nat,
      (files.foldl groupStep acc).2.2 =
        acc.2.2 + files.countP (fun f => decide (getFileType f = FileType.video)) := by
  induction files with
  | nil => intro acc; simp
  | cons f fs ih =>
    intro acc
    rw [List.foldl_cons, ih, List.countP_cons]
    by_cases hv : getFileType f = FileType.video
    · simp only [groupStep, hv, true_or, if_true, if_pos]
      simp [hv]
      omega
    · by_cases hs : getFileType f = FileType.subtitle
      · simp [groupStep, hv, hs]
      · simp [groupStep, hv, hs]

/-- Claim C1: a lesson group is retained in the built structure iff it contains at
least one video-role file; in particular grouping `["2.a.mp4", "2.a.vtt", "3.b.vtt"]`
retains exactly the ordinal-`"2"` group holding the video and the subtitle. -/
theorem claim_c1_group_retention :
    (∀ (files : List JName) (g : Lesson),
        g ∈ retainedLessons files ↔ g ∈ allGroups files ∧ hasVideoFile g = true) ∧
    retainedLessons exSub = [exSubLesson] := by
  refine ⟨fun files g => ?_, by decide⟩
  unfold retainedLessons
  rw [List.mem_insertionSort, List.mem_filter]

/-- Counterexample to claim C3: for `["2.a.mp4", "2.a.vtt", "3.b.vtt"]` the subtitle-only
ordinal-`"3"` bucket is dropped and the extra count is zero, yet `hasNonVideoFiles`
is `false`, not `true` as the claim's "OR at least one bucket was dropped" predicts. -/
theorem claim_c3_counterexample :
    sectionHasExtra exSub = false ∧ droppedGroups exSub ≠ [] ∧
      exSub.countP isExtraFile = 0 := by decide

/-- Claim C3 as amended: the `hasExtraFiles` flag is true iff the section holds at
least one file whose role is neither video nor subtitle; dropped buckets alone never
trigger it. -/
theorem claim_c3_extra_flag (files : List JName) :
    sectionHasExtra files = files.any isExtraFile := by
  have h1 : (groupFiles (files.insertionSort natLe)).2.1 =
      (files.insertionSort natLe).filter isExtraFile := by
    simpa [groupFiles] using foldl_groupStep_extra (files.insertionSort natLe) ([], [], 0)
  show decide (0 < (groupFiles (files.insertionSort natLe)).2.1.length) = files.any isExtraFile
  rw [h1]
  rcases hb : files.any isExtraFile with _ | _
  · rw [decide_eq_false_iff_not]
    intro hpos
    rw [List.length_pos] at hpos
    obtain ⟨x, hx⟩ := List.exists_mem_of_ne_nil _ hpos
    rw [List.mem_filter, List.mem_insertionSort] at hx
    have : files.any isExtraFile = true := List.any_eq_true.mpr ⟨x, hx.1, hx.2⟩
    rw [hb] at this
    exact Bool.false_ne_true this
  · rw [decide_eq_true_iff]
    obtain ⟨x, hx, hpx⟩ := List.any_eq_true.mp hb
    rw [List.length_pos]
    intro hnil
    have : x ∈ (files.insertionSort natLe).filter isExtraFile := by
      rw [List.mem_filter, List.mem_insertionSort]
      exact ⟨hx, hpx⟩
    rw [hnil] at this
    exact List.not_mem_nil x this

/-! ## The builder: failure conditions (C2) -/

theorem processSection_snd (d : JName × List JName) :
    (processSection d).2 = d.2.countP (fun f => decide (getFileType f = FileType.video)) := by
  show (groupFiles (d.2.insertionSort natLe)).2.2 = _
  rw [groupFiles, foldl_groupStep_videos]
  simpa using (List.perm_insertionSort natLe d.2).countP_eq _

theorem foldl_build (ds : List (JName × List JName)) :
    ∀ acc : List Section × Nat,
      (ds.foldl (fun acc d =>
          let sv := processSection d
          (if 0 < sv.1.lessons.length then acc.1 ++ [sv.1] else acc.1, acc.2 + sv.2)) acc) =
        (acc.1 ++ (ds.map sectionOf).filter (fun s => decide (s.lessons ≠ [])),
         acc.2 + (ds.map (fun d => (processSection d).2)).sum) := by
  induction ds with
  | nil => intro acc; simp
  | cons d ds ih =>
    intro acc
    rw [List.foldl_cons, ih]
    simp only []
    rw [List.map_cons, List.map_cons, List.sum_cons]
    by_cases h : 0 < (processSection d).1.lessons.length
    · have hne : (processSection d).1.lessons ≠ [] := List.ne_nil_of_length_pos h
      have hcond : decide ((sectionOf d).lessons ≠ []) = true := by
        simp [sectionOf, hne]
      rw [if_pos h]
      simp only [List.filter_cons]
      rw [if_pos hcond]
      refine Prod.ext ?_ ?_
      · show (acc.1 ++ [(processSection d).1]) ++ _ = acc.1 ++ (sectionOf d :: _)
        rw [List.append_assoc, List.singleton_append]
        rfl
      · show acc.2 + (processSection d).2 + _ = acc.2 + ((processSection d).2 + _)
        omega
    · have he : (processSection d).1.lessons = [] := by
        rw [← List.length_eq_zero]
        omega
      have hcond : ¬(decide ((sectionOf d).lessons ≠ []) = true) := by
        simp [sectionOf, he]
      rw [if_neg h]
      simp only [List.filter_cons]
      rw [if_neg hcond]
      refine Prod.ext ?_ ?_
      · rfl
      · show acc.2 + (processSection d).2 + _ = acc.2 + ((processSection d).2 + _)
        omega

theorem parse_spec (dirs : List (JName × List JName)) :
    parseCourseStructure dirs =
      if dirs = [] then Except.error StructureError.noSections
      else if totalVideoCount dirs = 0 then Except.error StructureError.noVideos
      else if retainedSections dirs = [] then Except.error StructureError.invalidFormat
      else Except.ok (retainedSections dirs) := by
  by_cases hnil : dirs = []
  · simp [parseCourseStructure, hnil]
  · have hlen : ¬(dirs.length = 0) := by simpa [List.length_eq_zero] using hnil
    have hcount :
        ((dirs.insertionSort sectionDirLe).map (fun d => (processSection d).2)).sum =
          totalVideoCount dirs := by
      have hmapeq :
          (dirs.insertionSort sectionDirLe).map (fun d => (processSection d).2) =
            (dirs.insertionSort sectionDirLe).map
              (fun d => d.2.countP (fun f => decide (getFileType f = FileType.video))) :=
        List.map_congr_left (fun d _ => processSection_snd d)
      rw [hmapeq, totalVideoCount]
      exact ((List.perm_insertionSort sectionDirLe dirs).map _).sum_eq
    unfold parseCourseStructure
    rw [if_neg hlen, if_neg hnil, foldl_build]
    have hret : List.filter (fun s => decide (s.lessons ≠ []))
        (List.map sectionOf (List.insertionSort sectionDirLe dirs)) = retainedSections dirs := rfl
    simp only [List.nil_append, Nat.zero_add, hcount, hret, List.length_eq_zero]

/-- Claim C2: the builder's checks, in order — an empty subdirectory list raises the
"no sections" class before any processing; otherwise zero videos found anywhere raises
"no videos"; otherwise zero retained sections raises "invalid structure"; in every other
case the build succeeds with the retained sections. -/
theorem claim_c2_build_errors (dirs : List (JName × List JName)) :
    parseCourseStructure dirs =
      if dirs = [] then Except.error StructureError.noSections
      else if totalVideoCount dirs = 0 then Except.error StructureError.noVideos
      else if retainedSections dirs = [] then Except.error StructureError.invalidFormat
      else Except.ok (retainedSections dirs) :=
  parse_spec dirs

/-! ## The classifier: roles (C5) and ordinals / display names (C6) -/

theorem splitOnDot_ne_nil (l : JName) : splitOnDot l ≠ [] := by
  cases l with
  | nil => simp [splitOnDot]
  | cons c cs =>
    by_cases h : c = '.'
    · simp [splitOnDot, h]
    · cases hs : splitOnDot cs with
      | nil => simp [splitOnDot, h, hs]
      | cons a t => simp [splitOnDot, h, hs]

theorem splitOnDot_nodot {l : JName} (h : '.' ∉ l) : splitOnDot l = [l] := by
  induction l with
  | nil => rfl
  | cons c cs ih =>
    have hc : ¬(c = '.') := fun e => h (by simp [e])
    have hcs : '.' ∉ cs := fun m => h (List.mem_cons_of_mem _ m)
    simp [splitOnDot, hc, ih hcs]

theorem extOf_nodot {l : JName} (h : '.' ∉ l) : extOf l = l := by
  induction l with
  | nil => rfl
  | cons c cs ih =>
    have hc : ¬(c = '.') := fun e => h (by simp [e])
    have hcs : '.' ∉ cs := fun m => h (List.mem_cons_of_mem _ m)
    simp [extOf, hc, hcs]

theorem splitOnDot_length_two {l : JName} (h : '.' ∈ l) : 2 ≤ (splitOnDot l).length := by
  induction l with
  | nil => cases h
  | cons c cs ih =>
    by_cases hc : c = '.'
    · have h1 : 0 < (splitOnDot cs).length :=
        List.length_pos.mpr (splitOnDot_ne_nil cs)
      simp only [splitOnDot, hc, if_pos, List.length_cons]
      omega
    · have hcs : '.' ∈ cs := by
        rcases List.mem_cons.mp h with h' | h'
        · exact absurd h'.symm hc
        · exact h'
      cases hs : splitOnDot cs with
      | nil => exact absurd hs (splitOnDot_ne_nil cs)
      | cons a t =>
        have h2 := ih hcs
        rw [hs] at h2
        have h3 : splitOnDot (c :: cs) = (c :: a) :: t := by
          simp [splitOnDot, hc, hs]
        rw [h3]
        simp only [List.length_cons] at h2 ⊢
        omega

theorem splitOnDot_getLast (l : JName) : (splitOnDot l).getLast?.getD [] = extOf l := by
  induction l with
  | nil => rfl
  | cons c cs ih =>
    by_cases hc : c = '.'
    · subst hc
      have step1 : (splitOnDot ('.' :: cs)).getLast?.getD [] =
          (splitOnDot cs).getLast?.getD [] := by
        cases hs : splitOnDot cs with
        | nil => exact absurd hs (splitOnDot_ne_nil cs)
        | cons a t => simp [splitOnDot, hs, List.getLast?_cons_cons]
      rw [step1, ih]
      by_cases hdot : '.' ∈ cs
      · simp [extOf, hdot]
      · simp [extOf, hdot, extOf_nodot hdot]
    · by_cases hdot : '.' ∈ cs
      · cases hs : splitOnDot cs with
        | nil => exact absurd hs (splitOnDot_ne_nil cs)
        | cons a t =>
          cases t with
          | nil =>
            have := splitOnDot_length_two hdot
            rw [hs] at this
            simp at this
          | cons u us =>
            have step1 : (splitOnDot (c :: cs)).getLast?.getD [] =
                (splitOnDot cs).getLast?.getD [] := by
              simp [splitOnDot, hc, hs, List.getLast?_cons_cons]
            rw [step1, ih]
            simp [extOf, hdot]
      · simp [splitOnDot, hc, splitOnDot_nodot hdot, extOf, hdot]

/-- Counterexample to claim C5: the file name `"mp4"` has no dot, so by the claim it
should receive the fallback role, but the code takes the whole name as the extension
and classifies it as a video. -/
theorem claim_c5_counterexample :
    getFileType "mp4".toList = FileType.video ∧ specRole "mp4".toList = FileType.file ∧
      FileType.video ≠ FileType.file := by decide

/-- Claim C5 as amended: the classifier maps the extension through the fixed table
case-insensitively, where the extension is the substring after the last dot — or the
*entire name* when no dot is present — and any unmatched extension receives the
fallback role; on every name that does contain a dot this agrees with the claim's
description. -/
theorem claim_c5_roles (l : JName) :
    getFileType l = (typeMap.lookup ((extOf l).map Char.toLower)).getD FileType.file ∧
      ('.' ∈ l → getFileType l = specRole l) := by
  have h1 : getFileType l =
      (typeMap.lookup ((extOf l).map Char.toLower)).getD FileType.file := by
    show (typeMap.lookup (((splitOnDot l).getLast?.getD []).map Char.toLower)).getD
        FileType.file = _
    rw [splitOnDot_getLast]
  refine ⟨h1, fun hdot => ?_⟩
  rw [h1, specRole, if_pos hdot]

/-- Witness for the amended claim C5 at the concrete dotted name `"a.pdf"`. -/
theorem claim_c5_witness : getFileType "a.pdf".toList = specRole "a.pdf".toList :=
  (claim_c5_roles "a.pdf".toList).2 (by decide)

theorem takeWhile_append_of_all {p : Char → Bool} {ds : JName} (c : Char) (rest : JName)
    (hds : ∀ x ∈ ds, p x = true) (hc : p c = false) :
    (ds ++ c :: rest).takeWhile p = ds ∧ (ds ++ c :: rest).dropWhile p = c :: rest := by
  induction ds with
  | nil => simp [List.takeWhile_cons, List.dropWhile_cons, hc]
  | cons d ds ih =>
    have hd := hds d (by simp)
    have ih' := ih (fun x hx => hds x (by simp [hx]))
    simp [List.takeWhile_cons, List.dropWhile_cons, hd, ih'.1, ih'.2]

/-- Claim C6: the ordinal is the leading digit run when immediately followed by `'.'`
and `"0"` otherwise, and the classifier's examples — `"10. Final.mp4"` gives role
video, ordinal `"10"`, display name `"Final"`; `"readme.pdf"` gives role pdf,
ordinal `"0"`, display name `"readme"`. -/
theorem claim_c6_classifier :
    (∀ ds rest : JName, ds ≠ [] → (∀ c ∈ ds, c.isDigit = true) →
        extractLessonNumber (ds ++ '.' :: rest) = ds) ∧
    (∀ l : JName,
        (¬ ∃ ds rest, l = ds ++ '.' :: rest ∧ ds ≠ [] ∧ ∀ c ∈ ds, c.isDigit = true) →
        extractLessonNumber l = ['0']) ∧
    extractLessonNumber "10. Final.mp4".toList = "10".toList ∧
    cleanLessonName "10. Final.mp4".toList = "Final".toList ∧
    getFileType "10. Final.mp4".toList = FileType.video ∧
    extractLessonNumber "readme.pdf".toList = "0".toList ∧
    cleanLessonName "readme.pdf".toList = "readme".toList ∧
    getFileType "readme.pdf".toList = FileType.pdf := by
  refine ⟨?_, ?_, by decide, by decide, by decide, by decide, by decide, by decide⟩
  · intro ds rest hne hds
    have h := takeWhile_append_of_all '.' rest hds (by decide)
    show (if (ds ++ '.' :: rest).takeWhile Char.isDigit ≠ [] ∧
            ((ds ++ '.' :: rest).dropWhile Char.isDigit).head? = some '.' then
          (ds ++ '.' :: rest).takeWhile Char.isDigit else ['0']) = ds
    rw [h.1, h.2]
    simp [hne]
  · intro l hno
    by_cases h1 : l.takeWhile Char.isDigit ≠ [] ∧
        (l.dropWhile Char.isDigit).head? = some '.'
    · exfalso
      apply hno
      refine ⟨l.takeWhile Char.isDigit, (l.dropWhile Char.isDigit).tail, ?_, h1.1, ?_⟩
      · cases hd : l.dropWhile Char.isDigit with
        | nil => rw [hd] at h1; exact absurd h1.2 (by simp)
        | cons x t =>
          have hx : x = '.' := by
            have h2 := h1.2
            rw [hd] at h2
            simpa using h2
          have hl : l = l.takeWhile Char.isDigit ++ x :: t := by
            conv_lhs => rw [← List.takeWhile_append_dropWhile Char.isDigit l]
            rw [hd]
          rw [List.tail_cons]
          nth_rewrite 1 [hl]
          rw [hx]
      · intro c hc
        exact List.mem_takeWhile_imp hc
    · show (if l.takeWhile Char.isDigit ≠ [] ∧
            (l.dropWhile Char.isDigit).head? = some '.' then
          l.takeWhile Char.isDigit else ['0']) = ['0']
      rw [if_neg h1]

/-- Witness for claim C6's general conjuncts: the leading-digit rule applied at
`"3.x"`, and the fallback at the dotless name `"3x"`. -/
theorem claim_c6_witness :
    extractLessonNumber ('3' :: '.' :: 'x' :: []) = ['3'] ∧
      extractLessonNumber ('3' :: 'x' :: []) = ['0'] := by
  constructor
  · exact claim_c6_classifier.1 ['3'] ['x'] (by decide) (by decide)
  · refine claim_c6_classifier.2.1 ['3', 'x'] ?_
    rintro ⟨ds, rest, heq, -, -⟩
    have hmem : '.' ∈ ['3', 'x'] := by
      rw [heq]
      exact List.mem_append.mpr (Or.inr (by simp))
    simp at hmem

/-! ## The progress percentage (C4) -/

/-- JavaScript `Math.round((c / t) * 100)` over naturals with `t > 0` equals the
integer division `(200·c + t) / (2·t)`. -/
theorem progressPercentage_intDiv (struct : List Section) (completed : List JName)
    (h : 0 < totalLessons struct) :
    progressPercentage struct completed =
      (200 * (completed.dedup.length : ℤ) + (totalLessons struct : ℤ)) /
        (2 * (totalLessons struct : ℤ)) := by
  have ht : ((totalLessons struct : ℚ)) ≠ 0 := by
    exact_mod_cast Nat.pos_iff_ne_zero.mp h
  have key : ((completed.dedup.length : ℚ) / (totalLessons struct : ℚ)) * 100 + 1 / 2 =
      (((200 * (completed.dedup.length : ℤ) + (totalLessons struct : ℤ)) : ℤ) : ℚ) /
        (((2 * totalLessons struct : ℕ) : ℚ)) := by
    push_cast
    field_simp
    ring
  rw [progressPercentage, if_pos h, jsRound, key, Rat.floor_intCast_div_natCast]
  push_cast
  rfl

/-- Counterexample to claim C4: with the one-lesson structure the builder produces for
`oneVideoDirs` and a persisted completion set holding two identifiers (stale progress
from an earlier, larger scan), the computed percentage is `200`, outside the claimed
0–100 range. -/
theorem claim_c4_counterexample :
    parseCourseStructure oneVideoDirs = Except.ok oneVideoStruct ∧
      progressPercentage oneVideoStruct ["0-0".toList, "0-1".toList] = 200 ∧
      ¬(progressPercentage oneVideoStruct ["0-0".toList, "0-1".toList] ≤ 100) := by
  have h := progressPercentage_intDiv oneVideoStruct
    ["0-0".toList, "0-1".toList] (by decide)
  have hc : (["0-0".toList, "0-1".toList].dedup.length : Nat) = 2 := by decide
  have ht : totalLessons oneVideoStruct = 1 := by decide
  rw [hc, ht] at h
  norm_num at h
  have h2 : progressPercentage oneVideoStruct ["0-0".toList, "0-1".toList] = 200 := h
  exact ⟨by decide, h2, by rw [h2]; norm_num⟩

/-- Claim C4 as amended: the percentage is `round(100·c/t)` when `t > 0` (equivalently
the integer division `(200·c + t) / (2·t)`) and `0` when `t = 0`; it is always
non-negative, and is at most 100 whenever the completed count does not exceed the
lesson count — with a stale completion set (`c > t`) it can exceed 100. -/
theorem claim_c4_percentage (struct : List Section) (completed : List JName) :
    (totalLessons struct = 0 → progressPercentage struct completed = 0) ∧
    (0 < totalLessons struct →
      progressPercentage struct completed =
        (200 * (completed.dedup.length : ℤ) + (totalLessons struct : ℤ)) /
          (2 * (totalLessons struct : ℤ))) ∧
    0 ≤ progressPercentage struct completed ∧
    (completed.dedup.length ≤ totalLessons struct →
      progressPercentage struct completed ≤ 100) := by
  refine ⟨?_, progressPercentage_intDiv struct completed, ?_, ?_⟩
  · intro h0
    rw [progressPercentage, if_neg (by omega)]
  · by_cases h : 0 < totalLessons struct
    · rw [progressPercentage, if_pos h, jsRound]
      refine Int.le_floor.mpr ?_
      have hq : (0:ℚ) ≤ ((completed.dedup.length : ℚ) / (totalLessons struct : ℚ)) * 100 := by
        positivity
      push_cast
      linarith
    · rw [progressPercentage, if_neg h]
  · intro hct
    by_cases h : 0 < totalLessons struct
    · rw [progressPercentage, if_pos h, jsRound]
      have htpos : (0:ℚ) < (totalLessons struct : ℚ) := by exact_mod_cast h
      have h1 : (completed.dedup.length : ℚ) / (totalLessons struct : ℚ) ≤ 1 := by
        rw [div_le_one htpos]
        exact_mod_cast hct
      have h2 : ((completed.dedup.length : ℚ) / (totalLessons struct : ℚ)) * 100 + 1 / 2 <
          ((101 : ℤ) : ℚ) := by
        have h3 := mul_le_mul_of_nonneg_right h1 (by norm_num : (0:ℚ) ≤ 100)
        push_cast
        linarith
      have h4 := Int.floor_lt.mpr h2
      omega
    · rw [progressPercentage, if_neg h]
      norm_num

/-- Witness for the amended claim C4 on the three-lesson structure: 1 of 3 completed
gives 33, 2 of 3 gives 67, and the bounds hold there. -/
theorem claim_c4_witness :
    progressPercentage threeStruct ["0-0".toList] = 33 ∧
      progressPercentage threeStruct ["0-0".toList, "0-1".toList] = 67 ∧
      0 ≤ progressPercentage threeStruct ["0-0".toList] ∧
      progressPercentage threeStruct ["0-0".toList] ≤ 100 := by
  have h1 := (claim_c4_percentage threeStruct ["0-0".toList]).2.1 (by decide)
  have h2 := (claim_c4_percentage threeStruct ["0-0".toList, "0-1".toList]).2.1 (by decide)
  have hb1 := (claim_c4_percentage threeStruct ["0-0".toList]).2.2.1
  have hb2 := (claim_c4_percentage threeStruct ["0-0".toList]).2.2.2 (by decide)
  have hc1 : (["0-0".toList].dedup.length : Nat) = 1 := by decide
  have hc2 : (["0-0".toList, "0-1".toList].dedup.length : Nat) = 2 := by decide
  have ht : totalLessons threeStruct = 3 := by decide
  rw [hc1, ht] at h1
  rw [hc2, ht] at h2
  norm_num at h1 h2
  exact ⟨h1, h2, hb1, hb2⟩

/-! ## Failed course loads (C9) -/

/-- Counterexample to claim C9: a failed load (empty directory, "no sections" error)
leaves the *course name* and *course id* overwritten with the attempted course's
values; they do not equal their pre-attempt values. -/
theorem claim_c9_counterexample :
    (loadCourse oldState "New Course".toList [] []).2 = false ∧
      (loadCourse oldState "New Course".toList [] []).1.courseName = "New Course".toList ∧
      oldState.courseName = "old".toList ∧
      ¬("New Course".toList = "old".toList) := by decide

/-- Claim C9 as amended: when the builder raises a `StructureError`, the load attempt
reports failure and leaves the course structure, the in-memory completion set and the
persisted library metadata untouched — but the active course name and active course
identifier have already been overwritten with the attempted course's name and derived
id. -/
theorem claim_c9_failed_load (st : AppState) (dirName : JName)
    (dirs : List (JName × List JName)) (stored : List JName) (e : StructureError)
    (h : parseCourseStructure dirs = Except.error e) :
    (loadCourse st dirName dirs stored).2 = false ∧
    (loadCourse st dirName dirs stored).1.courseStructure = st.courseStructure ∧
    (loadCourse st dirName dirs stored).1.completedLessons = st.completedLessons ∧
    (loadCourse st dirName dirs stored).1.courseLibrary = st.courseLibrary ∧
    (loadCourse st dirName dirs stored).1.courseName = dirName ∧
    (loadCourse st dirName dirs stored).1.currentCourseId = generateCourseId dirName := by
  unfold loadCourse
  rw [h]
  exact ⟨rfl, rfl, rfl, rfl, rfl, rfl⟩

/-- Witness for the amended claim C9 at a concrete failing load. -/
theorem claim_c9_witness :
    (loadCourse oldState "New".toList [] []).2 = false ∧
      (loadCourse oldState "New".toList [] []).1.courseStructure =
        oldState.courseStructure ∧
      (loadCourse oldState "New".toList [] []).1.courseLibrary =
        oldState.courseLibrary := by
  have h := claim_c9_failed_load oldState "New".toList [] [] StructureError.noSections
    (by decide)
  exact ⟨h.1, h.2.1, h.2.2.2.1⟩

/-! ## Lesson navigation (C10) -/

theorem retainedSections_lessons_ne_nil {dirs : List (JName × List JName)} {s : Section}
    (hs : s ∈ retainedSections dirs) : s.lessons ≠ [] := by
  unfold retainedSections at hs
  obtain ⟨-, hp⟩ := List.mem_filter.mp hs
  simpa using hp

theorem parse_ok {dirs : List (JName × List JName)} {struct : List Section}
    (h : parseCourseStructure dirs = Except.ok struct) :
    struct = retainedSections dirs := by
  rw [parse_spec] at h
  by_cases h1 : dirs = []
  · rw [if_pos h1] at h; cases h
  rw [if_neg h1] at h
  by_cases h2 : totalVideoCount dirs = 0
  · rw [if_pos h2] at h; cases h
  rw [if_neg h2] at h
  by_cases h3 : retainedSections dirs = []
  · rw [if_pos h3] at h; cases h
  rw [if_neg h3] at h
  cases h
  rfl

/-- Claim C10: on a builder-produced structure, navigating by `+1` or `-1` from an
in-bounds position lands on an in-bounds position, and the only positions it leaves
unchanged are the very first lesson (going back) and the very last lesson (going
forward). -/
theorem claim_c10_navigation (dirs : List (JName × List JName)) (struct : List Section)
    (hok : parseCourseStructure dirs = Except.ok struct)
    (si li : Nat) (d : ℤ) (hd : d = 1 ∨ d = -1)
    (hsi : si < struct.length) (hli : li < lessonCount struct si) :
    (navigateLesson struct si li d).1 < struct.length ∧
    (navigateLesson struct si li d).2 <
      lessonCount struct (navigateLesson struct si li d).1 ∧
    (navigateLesson struct si li d = (si, li) →
      (d = -1 ∧ si = 0 ∧ li = 0) ∨
      (d = 1 ∧ si = struct.length - 1 ∧ li = lessonCount struct si - 1)) := by
  have hne : ∀ i, i < struct.length → 0 < lessonCount struct i := by
    intro i hi
    have hmem2 : struct.get ⟨i, hi⟩ ∈ retainedSections dirs := by
      rw [← parse_ok hok]
      exact List.get_mem struct i hi
    have hnn := retainedSections_lessons_ne_nil hmem2
    show 0 < (struct.getD i defaultSection).lessons.length
    rw [List.getD_eq_getElem?_getD, List.getElem?_eq_getElem hi]
    simp only [Option.getD_some]
    exact List.length_pos.mpr hnn
  rcases hd with rfl | rfl
  · by_cases hcross : (lessonCount struct si : ℤ) ≤ (li : ℤ) + 1
    · by_cases hlast : si < struct.length - 1
      · have hnav : navigateLesson struct si li 1 = (si + 1, 0) := by
          unfold navigateLesson
          rw [if_neg (by omega), if_pos hcross, if_pos hlast]
        rw [hnav]
        refine ⟨by omega, hne (si + 1) (by omega), ?_⟩
        intro hpair
        rw [Prod.mk.injEq] at hpair
        exfalso
        omega
      · have hnav : navigateLesson struct si li 1 = (si, li) := by
          unfold navigateLesson
          rw [if_neg (by omega), if_pos hcross, if_neg hlast]
        rw [hnav]
        exact ⟨hsi, hli, fun _ => Or.inr ⟨rfl, by omega, by omega⟩⟩
    · have hnav : navigateLesson struct si li 1 = (si, ((li : ℤ) + 1).toNat) := by
        unfold navigateLesson
        rw [if_neg (by omega), if_neg hcross]
      rw [hnav]
      have hb : ((li : ℤ) + 1).toNat < lessonCount struct si := by omega
      refine ⟨hsi, hb, ?_⟩
      intro hpair
      rw [Prod.mk.injEq] at hpair
      exfalso
      omega
  · by_cases hneg : (li : ℤ) + (-1) < 0
    · by_cases hfirst : 0 < si
      · have hnav : navigateLesson struct si li (-1) =
            (si - 1, lessonCount struct (si - 1) - 1) := by
          unfold navigateLesson
          rw [if_pos hneg, if_pos hfirst]
        rw [hnav]
        have hcnt := hne (si - 1) (by omega)
        have hb : lessonCount struct (si - 1) - 1 < lessonCount struct (si - 1) := by
          omega
        refine ⟨by omega, hb, ?_⟩
        intro hpair
        rw [Prod.mk.injEq] at hpair
        exfalso
        omega
      · have hnav : navigateLesson struct si li (-1) = (si, li) := by
          unfold navigateLesson
          rw [if_pos hneg, if_neg hfirst]
        rw [hnav]
        exact ⟨hsi, hli, fun _ => Or.inl ⟨rfl, by omega, by omega⟩⟩
    · have hnav : navigateLesson struct si li (-1) = (si, ((li : ℤ) + (-1)).toNat) := by
        unfold navigateLesson
        rw [if_neg hneg, if_neg (by omega)]
      rw [hnav]
      have hb : ((li : ℤ) + (-1)).toNat < lessonCount struct si := by omega
      refine ⟨hsi, hb, ?_⟩
      intro hpair
      rw [Prod.mk.injEq] at hpair
      exfalso
      omega

/-- Witness for claim C10: navigating forward from lesson `(0, 0)` of the structure
built from `navDirs` stays in bounds. -/
theorem claim_c10_witness :
    (navigateLesson (retainedSections navDirs) 0 0 1).1 <
        (retainedSections navDirs).length ∧
      (navigateLesson (retainedSections navDirs) 0 0 1).2 <
        lessonCount (retainedSections navDirs)
          (navigateLesson (retainedSections navDirs) 0 0 1).1 := by
  have h := claim_c10_navigation navDirs (retainedSections navDirs) (by decide)
    0 0 1 (Or.inl rfl) (by decide) (by decide)
  exact ⟨h.1, h.2.1⟩

/-! ## Enumeration-order determinism of the builder (C7) -/

theorem sorted_perm_eq_of_noties {α : Type} (f : α → JName) :
    ∀ (l₁ l₂ : List α), l₁.Perm l₂ →
      l₁.Pairwise (fun a b => natLe (f a) (f b)) →
      l₂.Pairwise (fun a b => natLe (f a) (f b)) →
      l₁.Pairwise (fun a b => naturalSort (f a) (f b) ≠ Ordering.eq) →
      l₁ = l₂
  | [], l₂, hp, _, _, _ => hp.nil_eq
  | x :: xs, l₂, hp, hs₁, hs₂, hnt => by
    cases l₂ with
    | nil => exact hp.eq_nil
    | cons y ys =>
      have hxy : x = y := by
        by_contra hne
        have hx2 : x ∈ ys := by
          rcases List.mem_cons.mp (hp.subset (List.mem_cons_self x xs)) with h' | h'
          · exact absurd h' hne
          · exact h'
        have hy2 : y ∈ xs := by
          rcases List.mem_cons.mp (hp.symm.subset (List.mem_cons_self y ys)) with h' | h'
          · exact absurd h'.symm hne
          · exact h'
        have h1 : natLe (f x) (f y) := (List.pairwise_cons.mp hs₁).1 y hy2
        have h2 : natLe (f y) (f x) := (List.pairwise_cons.mp hs₂).1 x hx2
        have h3 : naturalSort (f x) (f y) ≠ Ordering.eq :=
          (List.pairwise_cons.mp hnt).1 y hy2
        rcases hv : naturalSort (f x) (f y) with _ | _ | _
        · have h4 : naturalSort (f y) (f x) = Ordering.gt := by
            rw [naturalSort_swap, hv]
            rfl
          exact h2 h4
        · exact h3 hv
        · exact h1 hv
      subst hxy
      rw [sorted_perm_eq_of_noties f xs ys hp.cons_inv
        (List.pairwise_cons.mp hs₁).2 (List.pairwise_cons.mp hs₂).2
        (List.pairwise_cons.mp hnt).2]

theorem insertionSort_eq_of_perm_noties {α : Type} (f : α → JName)
    (le : α → α → Prop) [DecidableRel le] [IsTotal α le] [IsTrans α le]
    (hle : ∀ a b, le a b ↔ natLe (f a) (f b))
    (l₁ l₂ : List α) (hp : l₁.Perm l₂)
    (hnt : l₁.Pairwise (fun a b => naturalSort (f a) (f b) ≠ Ordering.eq)) :
    l₁.insertionSort le = l₂.insertionSort le := by
  refine sorted_perm_eq_of_noties f _ _ ?_ ?_ ?_ ?_
  · exact (List.perm_insertionSort le l₁).trans (hp.trans (List.perm_insertionSort le l₂).symm)
  · exact (List.sorted_insertionSort le l₁).imp (fun h => (hle _ _).mp h)
  · exact (List.sorted_insertionSort le l₂).imp (fun h => (hle _ _).mp h)
  · refine (List.Perm.pairwise_iff ?_ (List.perm_insertionSort le l₁)).mpr hnt
    intro a b h hsym
    refine h ?_
    rw [naturalSort_swap, hsym]
    rfl

theorem processSection_normalize (d : JName × List JName) :
    processSection (normalizeDir d) = processSection d := by
  have h : (d.2.insertionSort natLe).insertionSort natLe = d.2.insertionSort natLe :=
    List.Sorted.insertionSort_eq (List.sorted_insertionSort natLe d.2)
  simp only [processSection, normalizeDir, h]

theorem forall2_normalize :
    ∀ {dirs mid : List (JName × List JName)},
      List.Forall₂ (fun d e => d.1 = e.1 ∧ d.2.Perm e.2) dirs mid →
      (∀ d ∈ dirs, d.2.Pairwise (fun a b => naturalSort a b ≠ Ordering.eq)) →
      dirs.map normalizeDir = mid.map normalizeDir := by
  intro dirs mid hf
  induction hf with
  | nil => intro _; rfl
  | @cons a b as bs h1 h2 ih =>
    intro hfiles
    simp only [List.map_cons]
    have hhead : normalizeDir a = normalizeDir b := by
      refine Prod.ext h1.1 ?_
      exact insertionSort_eq_of_perm_noties (fun x => x) natLe (fun _ _ => Iff.rfl)
        a.2 b.2 h1.2 (hfiles a (by simp))
    rw [hhead, ih (fun d hd => hfiles d (List.mem_cons_of_mem _ hd))]

theorem parse_normalize (dirs : List (JName × List JName)) :
    parseCourseStructure (dirs.map normalizeDir) = parseCourseStructure dirs := by
  rw [parse_spec, parse_spec]
  have h2 : totalVideoCount (dirs.map normalizeDir) = totalVideoCount dirs := by
    unfold totalVideoCount
    rw [List.map_map]
    congr 1
    refine List.map_congr_left ?_
    intro d _
    exact (List.perm_insertionSort natLe d.2).countP_eq _
  have h3 : retainedSections (dirs.map normalizeDir) = retainedSections dirs := by
    unfold retainedSections
    rw [← List.map_insertionSort sectionDirLe sectionDirLe normalizeDir dirs
      (fun a _ b _ => Iff.rfl), List.map_map]
    congr 1
    refine List.map_congr_left ?_
    intro d _
    exact congrArg Prod.fst (processSection_normalize d)
  rw [h2, h3]
  simp only [List.map_eq_nil_iff]

/-- Claim C7 as amended: the builder's output is identical for any two enumeration
orders of the directory listings, *provided* no two sibling names tie under the
case-insensitive numeric comparator; when names tie (e.g. `"A"` vs `"a"`), the stable
sort preserves enumeration order, which leaks into the output.  `mid` carries the
per-directory file permutations, and `dirs₂` a permutation of the directories. -/
theorem claim_c7_order_determinism (dirs₁ mid dirs₂ : List (JName × List JName))
    (hinner : List.Forall₂ (fun d e => d.1 = e.1 ∧ d.2.Perm e.2) dirs₁ mid)
    (houter : mid.Perm dirs₂)
    (hsec : dirs₁.Pairwise (fun d e => naturalSort d.1 e.1 ≠ Ordering.eq))
    (hfiles : ∀ d ∈ dirs₁, d.2.Pairwise (fun a b => naturalSort a b ≠ Ordering.eq)) :
    parseCourseStructure dirs₁ = parseCourseStructure dirs₂ := by
  rw [← parse_normalize dirs₁, ← parse_normalize dirs₂,
    forall2_normalize hinner hfiles]
  have hperm : (mid.map normalizeDir).Perm (dirs₂.map normalizeDir) :=
    houter.map normalizeDir
  have hnt : (mid.map normalizeDir).Pairwise
      (fun a b => naturalSort a.1 b.1 ≠ Ordering.eq) := by
    rw [← forall2_normalize hinner hfiles]
    exact List.pairwise_map.mpr hsec
  rw [parse_spec, parse_spec]
  have h2 : totalVideoCount (mid.map normalizeDir) =
      totalVideoCount (dirs₂.map normalizeDir) := by
    unfold totalVideoCount
    exact (hperm.map _).sum_eq
  have h3 : retainedSections (mid.map normalizeDir) =
      retainedSections (dirs₂.map normalizeDir) := by
    unfold retainedSections
    rw [insertionSort_eq_of_perm_noties Prod.fst sectionDirLe (fun _ _ => Iff.rfl)
      _ _ hperm hnt]
  have h1 : (mid.map normalizeDir = []) ↔ (dirs₂.map normalizeDir = []) := by
    constructor
    · intro h
      exact ((h ▸ hperm).nil_eq).symm
    · intro h
      exact (h ▸ hperm).eq_nil
  rw [h2, h3]
  by_cases hq : dirs₂.map normalizeDir = []
  · rw [if_pos hq, if_pos (h1.mpr hq)]
  · rw [if_neg hq, if_neg (fun hx => hq (h1.mp hx))]

/-- Counterexample to claim C7: the two section names `"A"` and `"a"` tie under the
case-insensitive comparator, so the two enumeration orders of the same directory set
produce structures whose sections appear in different orders. -/
theorem claim_c7_counterexample :
    tieDirsA.Perm tieDirsB ∧
      parseCourseStructure tieDirsA ≠ parseCourseStructure tieDirsB := by
  constructor
  · exact List.Perm.swap _ _ _
  · decide

/-- Witness for the amended claim C7: a two-section course whose names do not tie
parses identically from reversed enumeration orders. -/
theorem claim_c7_witness :
    parseCourseStructure navDirs = parseCourseStructure navDirs.reverse := by
  refine claim_c7_order_determinism navDirs navDirs navDirs.reverse ?_ ?_ ?_ ?_
  · exact List.forall₂_same.mpr (fun d _ => ⟨rfl, List.Perm.refl _⟩)
  · exact (List.reverse_perm navDirs).symm
  · decide
  · decide

end OhMyCourse

